import Mathlib

/-!
Verification of the tour-sequencing core of the RoutePlanner service
(`app.py`).  The two TSP routines (`greedy_tsp`, `ortools_tsp`) and the
composition logic of the `/optimize` handler (sub-problem construction,
solving, splicing, aggregation, rounding) are embedded as executable Lean
definitions.  Cost-matrix entries are `Option ℚ`, `none` standing for a
missing ("no edge") entry; a failed list access (a Python `IndexError`)
is modelled by an `Option`-valued result where it can occur.
-/

set_option autoImplicit false

namespace RoutePlanner

/-- Cost matrices as delivered by the table service: rows of optional
rational entries, `none` marking a missing ("no edge") entry. -/
abbrev Mat := List (List (Option ℚ))

/-- The comparison `d < best_dist` of `greedy_tsp`, where `best_dist`
starts at `float("inf")`: `none` stands for infinity. -/
def ltBest (d : ℚ) (best : Option ℚ) : Bool :=
  match best with
  | none => true
  | some b => decide (d < b)

/-- Inner candidate scan of `greedy_tsp` (`for j in range(n): ...`,
app.py lines 125-130): walk the candidate indices `js`, keeping the best
distance and best index seen so far; a `none` result models a raised
`IndexError`, a `none` matrix entry is skipped as a candidate. -/
def scanStep (mat : Mat) (last : Nat) (visited : List Bool) :
    List Nat → Option ℚ × Option Nat → Option (Option ℚ × Option Nat)
  | [], acc => some acc
  | j :: js, (best, nxt) =>
    match visited.get? j with
    | none => none
    | some true => scanStep mat last visited js (best, nxt)
    | some false =>
      match mat.get? last with
      | none => none
      | some row =>
        match row.get? j with
        | none => none
        | some none => scanStep mat last visited js (best, nxt)
        | some (some d) =>
          if ltBest d best then scanStep mat last visited js (some d, some j)
          else scanStep mat last visited js (best, nxt)

/-- Outer loop of `greedy_tsp` (`for _ in range(n - 1): ...`, app.py
lines 120-136): `fuel` counts the remaining iterations, `visited` and
`path` are the loop state; a selected node is marked visited and
appended, `next_idx is None` breaks the loop. -/
def greedyLoop (mat : Mat) : Nat → List Bool → List Nat → Option (List Nat)
  | 0, _, path => some path
  | fuel + 1, visited, path =>
    match path.getLast? with
    | none => none
    | some last =>
      match scanStep mat last visited (List.range mat.length) (none, none) with
      | none => none
      | some (_, none) => some path
      | some (_, some j) => greedyLoop mat fuel (visited.set j true) (path ++ [j])

/-- Embedding of `greedy_tsp(distance_matrix, roundtrip=True)` (app.py
lines 110-141):
nearest-neighbour construction starting at the depot 0; under
`roundtrip`, the depot is appended when the last node of the tour
differs from its first. -/
def greedy_tsp (mat : Mat) (roundtrip : Bool) : Option (List Nat) :=
  if mat.length = 0 then some []
  else
    match greedyLoop mat (mat.length - 1)
        ((List.replicate mat.length false).set 0 true) [0] with
    | none => none
    | some path =>
      if roundtrip then
        match path.get? 0, path.getLast? with
        | some h, some l => if h ≠ l then some (path ++ [0]) else some path
        | _, _ => none
      else some path

/-- Python `int()` applied to a rational: truncation toward zero
(`int(d)` in app.py line 155). -/
def pyInt (q : ℚ) : ℤ := q.num.tdiv q.den

/-- The integer matrix handed to OR-Tools (app.py lines 154-156):
`int(d if d is not None else 0)` applied entrywise. -/
def toIntMatrix (mat : Mat) : List (List ℤ) :=
  mat.map (fun row => row.map (fun d => pyInt (d.getD 0)))

/-- First half of the round-trip fix-up of the raw solver route
(app.py lines 197-198): prepend the depot when the route does not start
with it. -/
def fixStart (route : List Nat) : List Nat :=
  if route.get? 0 = some 0 then route else 0 :: route

/-- Second half of the round-trip fix-up (app.py lines 199-200): append
the depot when the route does not end with it. -/
def fixEnd (route : List Nat) : List Nat :=
  if route.getLast? = some 0 then route else route ++ [0]

/-- Round-trip fix-up of the raw solver route (app.py lines 196-200). -/
def fixRoundtrip (route : List Nat) : List Nat :=
  fixEnd (fixStart route)

/-- Embedding of `ortools_tsp(distance_matrix, roundtrip=True)`
(app.py lines 144-202).  The external OR-Tools search (`SolveWithParameters` plus the
route-extraction loop) is abstracted as `oracle`, a function from the
integer matrix to an optional raw node route; `hasOrTools` is the
`HAS_OR_TOOLS` capability flag.  `none` is the "absent" result. -/
def ortools_tsp (hasOrTools : Bool)
    (oracle : List (List ℤ) → Option (List Nat))
    (mat : Mat) (roundtrip : Bool) : Option (List Nat) :=
  if hasOrTools = false then none
  else if mat.length ≤ 1 then some [0]
  else
    match oracle (toIntMatrix mat) with
    | none => none
    | some route => some (if roundtrip then fixRoundtrip route else route)

/-- The sub-problem node list (app.py line 319):
`[fixed_start_idx] + [i for i in range(1, n_points) if i != fixed_start_idx]`. -/
def sub_nodes (n f : Nat) : List Nat :=
  f :: (List.range' 1 (n - 1)).filter (fun i => i ≠ f)

/-- The sub-problem distance matrix (app.py lines 322-326):
`sub_distances[i][j] = distances[sub_nodes[i]][sub_nodes[j]]`.  Both
index accesses are in range for a square matrix and a valid
`fixed_start_idx`; `getD` supplies the (never used) defaults. -/
def sub_matrix (distances : Mat) (f : Nat) : Mat :=
  (sub_nodes distances.length f).map (fun i =>
    (sub_nodes distances.length f).map (fun j =>
      (distances.getD i []).getD j none))

/-- One splice step (app.py lines 345-349): map the sub-index `k` back
to its global node and append it unless it was already placed (`used`
is kept equal to the set of nodes of the accumulated order). -/
def spliceStep (sn : List Nat) (acc : List Nat) (k : Nat) : List Nat :=
  let node := sn.getD k 0
  if node ∈ acc then acc else acc ++ [node]

/-- Splicing the sub-tour back into the global tour (app.py lines
342-353): start from `[0]`, walk the sub-tour, then append the depot
when the order does not already end with it. -/
def splice (sn : List Nat) (sub_order : List Nat) : List Nat :=
  if (sub_order.foldl (spliceStep sn) [0]).getLast? ≠ some 0 then
    sub_order.foldl (spliceStep sn) [0] ++ [0]
  else
    sub_order.foldl (spliceStep sn) [0]

/-- The order computation of the `/optimize` handler for a validated
fixed first stop `f` (app.py lines 312-355): the `n_points == 2`
special case, otherwise sub-problem build, solver selection
(`HAS_OR_TOOLS and m <= 25`), OR-Tools with greedy fallback, and the
splice; returns the global order with the `solver_used` label.  The
greedy result is defined on the (always square) sub-matrix, so the
`getD []` default is never used. -/
def composeFixed (hasOrTools : Bool)
    (oracle : List (List ℤ) → Option (List Nat))
    (distances : Mat) (f : Nat) : List Nat × String :=
  let n := distances.length
  if n = 2 then ([0, 1, 0], "greedy")
  else
    let sn := sub_nodes n f
    let subd := sub_matrix distances f
    if hasOrTools = true ∧ sn.length ≤ 25 then
      match ortools_tsp hasOrTools oracle subd true with
      | none => (splice sn ((greedy_tsp subd true).getD []), "greedy")
      | some sub_order => (splice sn sub_order, "ortools")
    else
      (splice sn ((greedy_tsp subd true).getD []), "greedy")

/-- The `/optimize` entry checks around the composition: a missing
fixed first stop is rejected (app.py lines 238-239), a fixed first stop
resolving to the depot is rejected (app.py lines 301-302). -/
def buildOrder (hasOrTools : Bool)
    (oracle : List (List ℤ) → Option (List Nat))
    (distances : Mat) (fixedStop : Option Nat) :
    Except String (List Nat × String) :=
  match fixedStop with
  | none => Except.error "Bitte einen festen ersten Stopp angeben."
  | some f =>
    if f = 0 then
      Except.error "Fester erster Stopp konnte nicht eindeutig zugeordnet werden."
    else
      Except.ok (composeFixed hasOrTools oracle distances f)

/-- One matrix entry along the tour, as read by the aggregation loop
(`distances[a][b]`, app.py line 364); the `getD` defaults model
accesses that the handler never makes on a valid order. -/
def entryD (mat : Mat) (a b : Nat) : ℚ :=
  ((mat.getD a []).getD b none).getD 0

/-- The aggregation loop of the handler (app.py lines 358-365):
`for i in range(len(order) - 1): total += matrix[order[i]][order[i+1]]`. -/
def tour_total (mat : Mat) (order : List Nat) : ℚ :=
  (List.range (order.length - 1)).foldl
    (fun acc i => acc + entryD mat (order.getD i 0) (order.getD (i + 1) 0)) 0

/-- Round half to even on rationals, the tie behaviour of the Python
builtin `round`. -/
def roundHalfEven (q : ℚ) : ℤ :=
  if q - ⌊q⌋ < 1 / 2 then ⌊q⌋
  else if q - ⌊q⌋ > 1 / 2 then ⌊q⌋ + 1
  else if 2 ∣ ⌊q⌋ then ⌊q⌋ else ⌊q⌋ + 1

/-- Python `round(x, k)` on rationals. -/
def pyRound (q : ℚ) (k : Nat) : ℚ := (roundHalfEven (q * 10 ^ k) : ℚ) / 10 ^ k

/-- The reported total distance (app.py line 387):
`round(total_distance / 1000, 2)`. -/
def total_distance_km (distances : Mat) (order : List Nat) : ℚ :=
  pyRound (tour_total distances order / 1000) 2

/-- The reported total duration (app.py line 388):
`round(total_duration / 60, 1)`. -/
def total_duration_min (durations : Mat) (order : List Nat) : ℚ :=
  pyRound (tour_total durations order / 60) 1

/-- The consecutive-pair sum of matrix entries along a tour, as the
design document states it. -/
def pairSum (mat : Mat) (order : List Nat) : ℚ :=
  ((order.zip order.tail).map (fun p => entryD mat p.1 p.2)).sum

/-- The 4-node scenario matrix of the design document. -/
def exampleMat : Mat :=
  [[some 0, some 10, some 15, some 20],
   [some 10, some 0, some 35, some 25],
   [some 15, some 35, some 0, some 30],
   [some 20, some 25, some 30, some 0]]

/-- A concrete symmetric 2-node matrix. -/
def mat2 : Mat := [[some 0, some 1], [some 1, some 0]]

/-- A concrete symmetric 3-node matrix. -/
def mat3 : Mat :=
  [[some 0, some 1, some 2],
   [some 1, some 0, some 3],
   [some 2, some 3, some 0]]

example : greedy_tsp exampleMat true = some [0, 1, 3, 2, 0] := by decide

example : greedy_tsp [] true = some [] := by decide

example : greedy_tsp [[none]] true = some [0] := by decide

example : tour_total exampleMat [0, 1, 3, 2, 0] = 80 := by
  show (0 : ℚ) + 10 + 25 + 30 + 15 = 80
  norm_num

example : ortools_tsp true (fun _ => none) [[some 1]] true = some [0] := by decide

example :
    composeFixed true (fun _ => some [0, 1]) exampleMat 2 =
      ([0, 2, 1, 0], "ortools") := by decide

example :
    composeFixed false (fun _ => none) exampleMat 2 =
      ([0, 2, 3, 1, 0], "greedy") := by decide

/-! ### Lemmas about the splice fold -/

lemma spliceStep_of_mem {sn acc : List Nat} {k : Nat}
    (h : sn.getD k 0 ∈ acc) : spliceStep sn acc k = acc := by
  show (if sn.getD k 0 ∈ acc then acc else acc ++ [sn.getD k 0]) = acc
  rw [if_pos h]

lemma spliceStep_of_not_mem {sn acc : List Nat} {k : Nat}
    (h : sn.getD k 0 ∉ acc) : spliceStep sn acc k = acc ++ [sn.getD k 0] := by
  show (if sn.getD k 0 ∈ acc then acc else acc ++ [sn.getD k 0]) =
    acc ++ [sn.getD k 0]
  rw [if_neg h]

lemma spliceFold_get_append (sn : List Nat) :
    ∀ (ks acc : List Nat), ∃ t, ks.foldl (spliceStep sn) acc = acc ++ t := by
  intro ks
  induction ks with
  | nil => intro acc; exact ⟨[], by simp⟩
  | cons k ks ih =>
    intro acc
    rw [List.foldl_cons]
    by_cases hmem : sn.getD k 0 ∈ acc
    · rw [spliceStep_of_mem hmem]
      exact ih acc
    · rw [spliceStep_of_not_mem hmem]
      obtain ⟨t, ht⟩ := ih (acc ++ [sn.getD k 0])
      exact ⟨[sn.getD k 0] ++ t, by rw [ht, List.append_assoc]⟩

lemma spliceFold_nodup (sn : List Nat) :
    ∀ (ks acc : List Nat), acc.Nodup → (ks.foldl (spliceStep sn) acc).Nodup := by
  intro ks
  induction ks with
  | nil => intro acc h; simpa using h
  | cons k ks ih =>
    intro acc h
    rw [List.foldl_cons]
    apply ih
    by_cases hmem : sn.getD k 0 ∈ acc
    · rwa [spliceStep_of_mem hmem]
    · rw [spliceStep_of_not_mem hmem]
      rw [List.nodup_append]
      exact ⟨h, List.nodup_singleton _, fun a ha hb => by
        simp only [List.mem_singleton] at hb
        exact hmem (hb ▸ ha)⟩

lemma spliceFold_mem (sn : List Nat) :
    ∀ (ks acc : List Nat) (x : Nat), x ∈ ks.foldl (spliceStep sn) acc →
      x ∈ acc ∨ x ∈ sn ∨ x = 0 := by
  intro ks
  induction ks with
  | nil => intro acc x h; exact Or.inl (by simpa using h)
  | cons k ks ih =>
    intro acc x h
    rw [List.foldl_cons] at h
    rcases ih _ x h with h' | h' | h'
    · by_cases hmem : sn.getD k 0 ∈ acc
      · rw [spliceStep_of_mem hmem] at h'
        exact Or.inl h'
      · rw [spliceStep_of_not_mem hmem] at h'
        rcases List.mem_append.mp h' with h' | h'
        · exact Or.inl h'
        · rw [List.mem_singleton] at h'
          subst h'
          by_cases hk : k < sn.length
          · exact Or.inr (Or.inl (by
              rw [List.getD_eq_getElem _ _ hk]
              exact List.getElem_mem _))
          · exact Or.inr (Or.inr (List.getD_eq_default _ _ (Nat.le_of_not_lt hk)))
    · exact Or.inr (Or.inl h')
    · exact Or.inr (Or.inr h')

lemma splice_head (sn so : List Nat) : (splice sn so).get? 0 = some 0 := by
  unfold splice
  obtain ⟨t, ht⟩ := spliceFold_get_append sn so [0]
  rw [ht]
  split <;> rfl

lemma splice_last (sn so : List Nat) : (splice sn so).getLast? = some 0 := by
  unfold splice
  by_cases hl : ((so.foldl (spliceStep sn) [0]).getLast? ≠ some 0)
  · rw [if_pos hl]
    simp
  · rw [if_neg hl]
    exact not_not.mp hl

lemma splice_count (sn so : List Nat) (x : Nat) (hx : x ≠ 0) :
    (splice sn so).count x ≤ 1 := by
  unfold splice
  have hnd : (so.foldl (spliceStep sn) [0]).Nodup :=
    spliceFold_nodup sn so [0] (List.nodup_singleton 0)
  have hcnt : (so.foldl (spliceStep sn) [0]).count x ≤ 1 :=
    List.nodup_iff_count_le_one.mp hnd x
  by_cases hl : ((so.foldl (spliceStep sn) [0]).getLast? ≠ some 0)
  · rw [if_pos hl, List.count_append]
    have h0 : List.count x [0] = 0 := by
      simp [hx]
    omega
  · rw [if_neg hl]
    exact hcnt

lemma splice_mem (sn so : List Nat) (x : Nat) (hmem : x ∈ splice sn so) :
    x = 0 ∨ x ∈ sn := by
  unfold splice at hmem
  by_cases hl : ((so.foldl (spliceStep sn) [0]).getLast? ≠ some 0)
  · rw [if_pos hl] at hmem
    rcases List.mem_append.mp hmem with hmem | hmem
    · rcases spliceFold_mem sn so [0] x hmem with h | h | h
      · exact Or.inl (by simpa using h)
      · exact Or.inr h
      · exact Or.inl h
    · exact Or.inl (by simpa using hmem)
  · rw [if_neg hl] at hmem
    rcases spliceFold_mem sn so [0] x hmem with h | h | h
    · exact Or.inl (by simpa using h)
    · exact Or.inr h
    · exact Or.inl h

lemma splice_second (n f : Nat) (so : List Nat) (hf : f ≠ 0)
    (h0 : so.get? 0 = some 0) :
    (splice (sub_nodes n f) so).get? 1 = some f := by
  obtain ⟨rest, rfl⟩ : ∃ rest, so = 0 :: rest := by
    cases so with
    | nil => simp at h0
    | cons a rest =>
      simp only [List.get?] at h0
      exact ⟨rest, by rw [Option.some_inj.mp h0]⟩
  unfold splice
  have h1 : (sub_nodes n f).getD 0 0 = f := rfl
  have h2 : (sub_nodes n f).getD 0 0 ∉ ([0] : List Nat) := by
    rw [h1]; simp [hf]
  have hstep : spliceStep (sub_nodes n f) [0] 0 = [0, f] := by
    rw [spliceStep_of_not_mem h2, h1, List.singleton_append]
  rw [List.foldl_cons, hstep]
  obtain ⟨t, ht⟩ := spliceFold_get_append (sub_nodes n f) rest [0, f]
  rw [ht]
  split <;> rfl

/-! ### Lemmas about the round-trip fix-up -/

lemma fixStart_head (route : List Nat) : (fixStart route).get? 0 = some 0 := by
  unfold fixStart
  by_cases h : route.get? 0 = some 0
  · rw [if_pos h]; exact h
  · rw [if_neg h]; rfl

lemma fixEnd_head (route : List Nat) (a : Nat) (h : route.get? 0 = some a) :
    (fixEnd route).get? 0 = some a := by
  unfold fixEnd
  by_cases hl : route.getLast? = some 0
  · rw [if_pos hl]; exact h
  · rw [if_neg hl]
    rw [List.get?_append (List.get?_eq_some.mp h).1]
    exact h

lemma fixRoundtrip_head (route : List Nat) :
    (fixRoundtrip route).get? 0 = some 0 :=
  fixEnd_head _ _ (fixStart_head route)

/-! ### Lemmas about the greedy construction -/

lemma getLast?_mem' {l : List Nat} {a : Nat} (h : l.getLast? = some a) :
    a ∈ l := by
  cases l with
  | nil => simp at h
  | cons b t =>
    rw [List.getLast?_eq_getLast (b :: t) (by simp)] at h
    exact (Option.some_inj.mp h) ▸ List.getLast_mem _

lemma scanStep_spec (mat : Mat) (last : Nat) (visited : List Bool)
    (hlast : last < mat.length) (hv : visited.length = mat.length)
    (hsq : ∀ row ∈ mat, row.length = mat.length) :
    ∀ (js : List Nat) (acc : Option ℚ × Option Nat),
      (∀ j ∈ js, j < mat.length) →
      (∀ j0, acc.2 = some j0 → visited.get? j0 = some false) →
      ∃ b nx, scanStep mat last visited js acc = some (b, nx) ∧
        (∀ j, nx = some j → visited.get? j = some false) := by
  intro js
  induction js with
  | nil =>
    intro acc _ hacc
    exact ⟨acc.1, acc.2, by rw [← Prod.mk.eta (p := acc)]; rfl, hacc⟩
  | cons j js ih =>
    intro acc hjs hacc
    obtain ⟨best, nxt⟩ := acc
    have hj : j < mat.length := hjs j (List.mem_cons_self j js)
    have hjv : j < visited.length := by omega
    obtain ⟨v, hv'⟩ : ∃ v, visited.get? j = some v := by
      rcases List.get?_eq_get hjv with h
      exact ⟨_, h⟩
    have hjs' : ∀ i ∈ js, i < mat.length := fun i hi => hjs i (List.mem_cons_of_mem j hi)
    cases v with
    | true =>
      rw [show scanStep mat last visited (j :: js) (best, nxt) =
          scanStep mat last visited js (best, nxt) by simp only [scanStep, hv']]
      exact ih (best, nxt) hjs' hacc
    | false =>
      obtain ⟨row, hrow⟩ : ∃ row, mat.get? last = some row := by
        rcases List.get?_eq_get hlast with h
        exact ⟨_, h⟩
      have hrowlen : row.length = mat.length := hsq row (List.get?_mem hrow)
      obtain ⟨d, hd⟩ : ∃ d, row.get? j = some d := by
        have : j < row.length := by omega
        rcases List.get?_eq_get this with h
        exact ⟨_, h⟩
      cases d with
      | none =>
        rw [show scanStep mat last visited (j :: js) (best, nxt) =
            scanStep mat last visited js (best, nxt) by
          simp only [scanStep, hv', hrow, hd]]
        exact ih (best, nxt) hjs' hacc
      | some dv =>
        rw [show scanStep mat last visited (j :: js) (best, nxt) =
            if ltBest dv best then scanStep mat last visited js (some dv, some j)
            else scanStep mat last visited js (best, nxt) by
          simp only [scanStep, hv', hrow, hd]]
        by_cases hlt : ltBest dv best = true
        · rw [if_pos hlt]
          exact ih (some dv, some j) hjs' (fun j0 hj0 => by
            rw [← Option.some_inj.mp hj0]
            exact hv')
        · rw [if_neg hlt]
          exact ih (best, nxt) hjs' hacc

lemma greedyLoop_spec (mat : Mat) (hsq : ∀ row ∈ mat, row.length = mat.length) :
    ∀ (fuel : Nat) (visited : List Bool) (path : List Nat),
      visited.length = mat.length →
      path ≠ [] →
      path.get? 0 = some 0 →
      path.Nodup →
      (∀ i ∈ path, i < mat.length) →
      (∀ i ∈ path, visited.get? i = some true) →
      ∃ path', greedyLoop mat fuel visited path = some path' ∧
        path' ≠ [] ∧ path'.get? 0 = some 0 ∧ path'.Nodup ∧
        (∀ i ∈ path', i < mat.length) := by
  intro fuel
  induction fuel with
  | zero =>
    intro visited path _ h1 h2 h3 h4 _
    exact ⟨path, rfl, h1, h2, h3, h4⟩
  | succ fuel ih =>
    intro visited path hv h1 h2 h3 h4 h5
    obtain ⟨last, hlast'⟩ :=
      Option.isSome_iff_exists.mp (List.getLast?_isSome.mpr h1)
    have hlastmem : last ∈ path := getLast?_mem' hlast'
    have hlastlt : last < mat.length := h4 last hlastmem
    obtain ⟨b, nx, heq, hnx⟩ := scanStep_spec mat last visited hlastlt hv hsq
      (List.range mat.length) (none, none)
      (fun j hj => List.mem_range.mp hj) (fun j0 hj0 => by simp at hj0)
    cases nx with
    | none =>
      rw [show greedyLoop mat (fuel + 1) visited path = some path by
        simp only [greedyLoop, hlast', heq]]
      exact ⟨path, rfl, h1, h2, h3, h4⟩
    | some j =>
      have hjf : visited.get? j = some false := hnx j rfl
      have hjlt : j < visited.length := (List.get?_eq_some.mp hjf).1
      have hjmat : j < mat.length := by omega
      have hjnot : j ∉ path := by
        intro hmem
        have hcontra := hjf.symm.trans (h5 j hmem)
        simp at hcontra
      rw [show greedyLoop mat (fuel + 1) visited path =
          greedyLoop mat fuel (visited.set j true) (path ++ [j]) by
        simp only [greedyLoop, hlast', heq]]
      apply ih (visited.set j true) (path ++ [j])
      · rw [List.length_set]; exact hv
      · simp
      · rw [List.get?_append (List.length_pos.mpr h1)]
        exact h2
      · rw [List.nodup_append]
        exact ⟨h3, List.nodup_singleton _, fun a ha hb => by
          rw [List.mem_singleton] at hb
          exact hjnot (hb ▸ ha)⟩
      · intro i hi
        rcases List.mem_append.mp hi with hi | hi
        · exact h4 i hi
        · rw [List.mem_singleton] at hi
          exact hi ▸ hjmat
      · intro i hi
        rcases List.mem_append.mp hi with hi | hi
        · rw [List.get?_set_ne true _ (fun he => hjnot (by rw [he]; exact hi))]
          exact h5 i hi
        · rw [List.mem_singleton] at hi
          subst hi
          exact List.get?_set_eq_of_lt true hjlt

lemma greedy_tsp_spec (mat : Mat)
    (hsq : ∀ row ∈ mat, row.length = mat.length) (rt : Bool) :
    ∃ path, greedy_tsp mat rt = some path ∧
      (mat = [] → path = []) ∧
      (mat ≠ [] →
        path.get? 0 = some 0 ∧
        (rt = true → path.getLast? = some 0) ∧
        (∀ x, x ≠ 0 → path.count x ≤ 1) ∧
        (∀ x ∈ path, x < mat.length)) := by
  by_cases hmat : mat = []
  · subst hmat
    refine ⟨[], ?_, fun _ => rfl, fun h => absurd rfl h⟩
    cases rt <;> rfl
  · have hlen : 0 < mat.length := List.length_pos.mpr hmat
    have hlen' : ¬(mat.length = 0) := by omega
    have hv0 : ((List.replicate mat.length false).set 0 true).length =
        mat.length := by simp
    obtain ⟨path', hloop, hne, hh, hnd, hlt⟩ :=
      greedyLoop_spec mat hsq (mat.length - 1)
        ((List.replicate mat.length false).set 0 true) [0] hv0
        (by simp) rfl (List.nodup_singleton 0)
        (fun i hi => by
          rw [List.mem_singleton] at hi
          subst hi
          exact hlen)
        (fun i hi => by
          rw [List.mem_singleton] at hi
          subst hi
          exact List.get?_set_eq_of_lt true (by simpa using hlen))
    obtain ⟨l, hl⟩ :=
      Option.isSome_iff_exists.mp (List.getLast?_isSome.mpr hne)
    have hcnt : ∀ x, x ≠ 0 → path'.count x ≤ 1 :=
      fun x _ => List.nodup_iff_count_le_one.mp hnd x
    cases rt with
    | false =>
      refine ⟨path', ?_, fun he => absurd he hmat, fun _ => ⟨hh, ?_, hcnt, hlt⟩⟩
      · rw [show greedy_tsp mat false = some path' by
          simp only [greedy_tsp, if_neg hlen', hloop, Bool.false_eq_true,
            if_false]]
      · intro h
        exact absurd h (by simp)
    | true =>
      have hg : greedy_tsp mat true =
          if (0 : Nat) ≠ l then some (path' ++ [0]) else some path' := by
        simp only [greedy_tsp, if_neg hlen', hloop, hh, hl, if_true]
      by_cases hzl : (0 : Nat) ≠ l
      · rw [if_pos hzl] at hg
        refine ⟨path' ++ [0], hg, fun he => absurd he hmat, fun _ => ⟨?_, ?_, ?_, ?_⟩⟩
        · rw [List.get?_append (List.length_pos.mpr hne)]
          exact hh
        · intro _
          simp
        · intro x hx
          rw [List.count_append]
          have h0 : List.count x [0] = 0 := by simp [hx]
          have := hcnt x hx
          omega
        · intro x hxmem
          rcases List.mem_append.mp hxmem with hxmem | hxmem
          · exact hlt x hxmem
          · rw [List.mem_singleton] at hxmem
            exact hxmem ▸ hlen
      · rw [if_neg hzl] at hg
        have hl0 : path'.getLast? = some 0 := by
          rw [hl, not_not.mp hzl]
        exact ⟨path', hg, fun he => absurd he hmat,
          fun _ => ⟨hh, fun _ => hl0, hcnt, hlt⟩⟩

/-! ### Lemmas about the sub-problem and the composition -/

lemma sub_matrix_length (d : Mat) (f : Nat) :
    (sub_matrix d f).length = (sub_nodes d.length f).length := by
  simp [sub_matrix]

lemma sub_matrix_square (d : Mat) (f : Nat) :
    ∀ row ∈ sub_matrix d f, row.length = (sub_matrix d f).length := by
  intro row hrow
  rw [sub_matrix_length]
  unfold sub_matrix at hrow
  obtain ⟨i, _, rfl⟩ := List.mem_map.mp hrow
  simp

lemma sub_matrix_ne_nil (d : Mat) (f : Nat) : sub_matrix d f ≠ [] := by
  intro h
  have := congrArg List.length h
  rw [sub_matrix_length] at this
  simp [sub_nodes] at this

/-- The greedy solver applied to the (always square, always nonempty)
sub-matrix returns a tour starting at the sub-depot 0. -/
lemma greedy_sub_head (d : Mat) (f : Nat) :
    ∃ p, greedy_tsp (sub_matrix d f) true = some p ∧ p.get? 0 = some 0 := by
  obtain ⟨p, hp, _, hprops⟩ :=
    greedy_tsp_spec (sub_matrix d f) (sub_matrix_square d f) true
  exact ⟨p, hp, (hprops (sub_matrix_ne_nil d f)).1⟩

/-- Any tour returned by `ortools_tsp` with `roundtrip=True` starts at
the depot 0. -/
lemma ortools_tsp_head (hOT : Bool)
    (oracle : List (List ℤ) → Option (List Nat)) (mat : Mat)
    (so : List Nat) (h : ortools_tsp hOT oracle mat true = some so) :
    so.get? 0 = some 0 := by
  unfold ortools_tsp at h
  by_cases h1 : hOT = false
  · rw [if_pos h1] at h
    cases h
  · rw [if_neg h1] at h
    by_cases h2 : mat.length ≤ 1
    · rw [if_pos h2] at h
      rw [← Option.some_inj.mp h]
      rfl
    · rw [if_neg h2] at h
      cases ho : oracle (toIntMatrix mat) with
      | none => rw [ho] at h; cases h
      | some route =>
        rw [ho] at h
        simp only [if_true] at h
        rw [← Option.some_inj.mp h]
        exact fixRoundtrip_head route

/-- Case analysis of `composeFixed` outside the `n_points == 2` special
case: either OR-Tools was selected and produced a sub-tour, or the
greedy sub-tour was spliced. -/
lemma composeFixed_cases (hasOT : Bool)
    (oracle : List (List ℤ) → Option (List Nat)) (d : Mat) (f : Nat)
    (hn2 : d.length ≠ 2) :
    (∃ so, ortools_tsp hasOT oracle (sub_matrix d f) true = some so ∧
        hasOT = true ∧ (sub_nodes d.length f).length ≤ 25 ∧
        composeFixed hasOT oracle d f =
          (splice (sub_nodes d.length f) so, "ortools")) ∨
    composeFixed hasOT oracle d f =
      (splice (sub_nodes d.length f)
        ((greedy_tsp (sub_matrix d f) true).getD []), "greedy") := by
  unfold composeFixed
  rw [if_neg hn2]
  by_cases hsel : hasOT = true ∧ (sub_nodes d.length f).length ≤ 25
  · rw [if_pos hsel]
    cases ho : ortools_tsp hasOT oracle (sub_matrix d f) true with
    | none => exact Or.inr rfl
    | some so => exact Or.inl ⟨so, rfl, hsel.1, hsel.2, rfl⟩
  · rw [if_neg hsel]
    exact Or.inr rfl

/-! ### Lemmas about integer conversion and aggregation -/

/-- Python `int()` truncates toward zero. -/
lemma pyInt_trunc (q : ℚ) : pyInt q = if 0 ≤ q then ⌊q⌋ else ⌈q⌉ := by
  unfold pyInt
  by_cases h : 0 ≤ q
  · rw [if_pos h, Rat.floor_def]
    exact Int.tdiv_eq_ediv (Rat.num_nonneg.mpr h) (Int.natCast_nonneg _)
  · rw [if_neg h]
    have hceil : ⌈q⌉ = -⌊-q⌋ := by rw [Int.floor_neg]; ring
    rw [hceil, Rat.floor_def]
    have hd : (-q).num = -q.num := by simp
    have hd2 : ((-q).den : ℤ) = (q.den : ℤ) := by simp
    rw [hd, hd2]
    have hneg : 0 ≤ -q.num := by
      have hq : q < 0 := lt_of_not_ge h
      have := Rat.num_neg.mpr hq
      omega
    calc q.num.tdiv q.den = -((-q.num).tdiv q.den) := by
          rw [← Int.neg_tdiv, neg_neg]
      _ = -(-q.num / q.den) := by rw [Int.tdiv_eq_ediv hneg (Int.natCast_nonneg _)]

lemma foldl_add_eq_sum (g : Nat → ℚ) (l : List Nat) :
    l.foldl (fun acc i => acc + g i) 0 = (l.map g).sum := by
  rw [List.sum_eq_foldl, List.foldl_map]

lemma sum_map_range (mat : Mat) :
    ∀ order : List Nat,
      ((List.range (order.length - 1)).map
        (fun i => entryD mat (order.getD i 0) (order.getD (i + 1) 0))).sum =
      pairSum mat order := by
  intro order
  induction order with
  | nil => simp [pairSum]
  | cons a rest ih =>
    cases rest with
    | nil => simp [pairSum]
    | cons b t =>
      have hlen : (a :: b :: t).length - 1 = ((b :: t).length - 1) + 1 := by simp
      rw [hlen, List.range_succ_eq_map, List.map_cons, List.sum_cons, List.map_map]
      show entryD mat a b +
          ((List.range ((b :: t).length - 1)).map
            (fun i => entryD mat ((b :: t).getD i 0) ((b :: t).getD (i + 1) 0))).sum =
          pairSum mat (a :: b :: t)
      rw [ih]
      show entryD mat a b + pairSum mat (b :: t) =
        ((((a, b) :: (b :: t).zip t)).map (fun p => entryD mat p.1 p.2)).sum
      rw [List.map_cons, List.sum_cons]
      rfl

/-- The aggregation loop computes the consecutive-pair sum. -/
lemma tour_total_eq_pairSum (mat : Mat) (order : List Nat) :
    tour_total mat order = pairSum mat order := by
  rw [tour_total, foldl_add_eq_sum, sum_map_range]

/-! ### Claim theorems -/

/-- C1: for every cost matrix with `n ≥ 2` nodes and every valid fixed
second stop `f ≠ 0`, the tour produced by the composition (sub-problem
build, solve, splice) starts with the global depot 0, has `f` at
position 1, and ends with the global depot 0 — for any solver
availability and any outcome of the bounded solver search. -/
theorem fixed_second_stop_position (hasOT : Bool)
    (oracle : List (List ℤ) → Option (List Nat)) (d : Mat) (f : Nat)
    (hn : 2 ≤ d.length) (hf1 : 1 ≤ f) (hfn : f < d.length) :
    (composeFixed hasOT oracle d f).1.get? 0 = some 0 ∧
    (composeFixed hasOT oracle d f).1.get? 1 = some f ∧
    (composeFixed hasOT oracle d f).1.getLast? = some 0 := by
  have hf0 : f ≠ 0 := by omega
  by_cases hn2 : d.length = 2
  · have hf : f = 1 := by omega
    subst hf
    have hcf : composeFixed hasOT oracle d 1 = ([0, 1, 0], "greedy") := by
      unfold composeFixed
      rw [if_pos hn2]
    rw [hcf]
    exact ⟨rfl, rfl, rfl⟩
  · rcases composeFixed_cases hasOT oracle d f hn2 with ⟨so, ho, _, _, hcf⟩ | hcf
    · rw [hcf]
      exact ⟨splice_head _ _,
        splice_second _ _ _ hf0 (ortools_tsp_head _ _ _ _ ho),
        splice_last _ _⟩
    · rw [hcf]
      obtain ⟨p, hp, hph⟩ := greedy_sub_head d f
      rw [hp, Option.getD_some]
      exact ⟨splice_head _ _, splice_second _ _ _ hf0 hph, splice_last _ _⟩

/-- Witness for C1 at the 4-node design matrix with `f = 2` and the
solver unavailable. -/
theorem fixed_second_stop_position_witness :
    2 ≤ exampleMat.length ∧ 1 ≤ 2 ∧ 2 < exampleMat.length ∧
    ((composeFixed false (fun _ => none) exampleMat 2).1.get? 0 = some 0 ∧
     (composeFixed false (fun _ => none) exampleMat 2).1.get? 1 = some 2 ∧
     (composeFixed false (fun _ => none) exampleMat 2).1.getLast? = some 0) :=
  ⟨by decide, by decide, by decide,
    fixed_second_stop_position false (fun _ => none) exampleMat 2
      (by decide) (by decide) (by decide)⟩

/-- C2: for every square distance matrix with `n ≥ 1`, `greedy_tsp`
with `roundtrip=True` returns a tour whose first and last elements are
node 0, in which every node other than 0 appears at most once, and
whose nodes all lie in `[0, n)`. -/
theorem greedy_roundtrip_closure (mat : Mat)
    (hsq : ∀ row ∈ mat, row.length = mat.length) (hn : 1 ≤ mat.length) :
    ∃ path, greedy_tsp mat true = some path ∧
      path.get? 0 = some 0 ∧ path.getLast? = some 0 ∧
      (∀ x, x ≠ 0 → path.count x ≤ 1) ∧
      (∀ x ∈ path, x < mat.length) := by
  obtain ⟨p, hp, _, hprops⟩ := greedy_tsp_spec mat hsq true
  have hne : mat ≠ [] := by
    intro h
    subst h
    simp at hn
  obtain ⟨h0, hlast, hcnt, hmem⟩ := hprops hne
  exact ⟨p, hp, h0, hlast rfl, hcnt, hmem⟩

/-- Witness for C2 at the 4-node design matrix. -/
theorem greedy_roundtrip_closure_witness :
    (∀ row ∈ exampleMat, row.length = exampleMat.length) ∧
    1 ≤ exampleMat.length ∧
    ∃ path, greedy_tsp exampleMat true = some path ∧
      path.get? 0 = some 0 ∧ path.getLast? = some 0 ∧
      (∀ x, x ≠ 0 → path.count x ≤ 1) ∧
      (∀ x ∈ path, x < exampleMat.length) :=
  ⟨by decide, by decide,
    greedy_roundtrip_closure exampleMat (by decide) (by decide)⟩

/-- C3: on the concrete 4-node symmetric matrix of the design document,
`greedy_tsp` with `roundtrip=True` returns exactly `[0, 1, 3, 2, 0]`,
and the sum of matrix entries along the consecutive pairs of that tour
is 80. -/
theorem greedy_example_tour :
    greedy_tsp exampleMat true = some [0, 1, 3, 2, 0] ∧
    tour_total exampleMat [0, 1, 3, 2, 0] = 80 :=
  ⟨by decide, by
    show (0 : ℚ) + 10 + 25 + 30 + 15 = 80
    norm_num⟩

/-- C4 counterexample: with the solver available, `ortools_tsp` on a
1-node matrix returns `[0]`, not the absent result the claim
requires. -/
theorem bounded_solver_small_counterexample :
    ortools_tsp true (fun _ => none) [[some 1]] true ≠ none := by decide

/-- C4 amended: `ortools_tsp` returns the absent result when the solver
library is unavailable, or when the search finds no solution on a
matrix with at least 2 nodes; on a matrix with fewer than 2 nodes (and
the library available) it instead returns the single-node tour `[0]`.
It never raises for these cases. -/
theorem bounded_solver_absent_cases
    (oracle : List (List ℤ) → Option (List Nat)) (mat : Mat) (rt : Bool) :
    ortools_tsp false oracle mat rt = none ∧
    (mat.length ≤ 1 → ortools_tsp true oracle mat rt = some [0]) ∧
    (2 ≤ mat.length → oracle (toIntMatrix mat) = none →
      ortools_tsp true oracle mat rt = none) := by
  refine ⟨rfl, ?_, ?_⟩
  · intro h
    unfold ortools_tsp
    rw [if_neg (by simp), if_pos h]
  · intro h ho
    unfold ortools_tsp
    rw [if_neg (by simp), if_neg (by omega), ho]

/-- Witness for C4 (amended) on concrete 1-node and 2-node matrices. -/
theorem bounded_solver_absent_cases_witness :
    ortools_tsp false (fun _ => none) [[some 1]] true = none ∧
    ortools_tsp true (fun _ => none) [[some 1]] true = some [0] ∧
    ortools_tsp true (fun _ => none) mat2 true = none :=
  ⟨(bounded_solver_absent_cases (fun _ => none) [[some 1]] true).1,
   (bounded_solver_absent_cases (fun _ => none) [[some 1]] true).2.1 (by decide),
   (bounded_solver_absent_cases (fun _ => none) mat2 true).2.2 (by decide) rfl⟩

/-- C5 counterexample: with no fixed second stop supplied, the handler
rejects the request with an error before any solving, so it does not
return the greedy tour (which on this 2-node matrix would be
`[0, 1, 0]`). -/
theorem unconstrained_rejected_counterexample :
    buildOrder false (fun _ => none) mat2 none ≠
      Except.ok ([0, 1, 0], "greedy") ∧
    greedy_tsp mat2 true = some [0, 1, 0] :=
  ⟨fun h => Except.noConfusion h, by decide⟩

/-- C5 amended: when no fixed second stop is supplied, the handler
returns the hard input error "Bitte einen festen ersten Stopp angeben."
before any solving; the code has no unconstrained path at all. -/
theorem no_fixed_stop_rejected (hasOT : Bool)
    (oracle : List (List ℤ) → Option (List Nat)) (d : Mat) :
    buildOrder hasOT oracle d none =
      Except.error "Bitte einen festen ersten Stopp angeben." := rfl

/-- C6 counterexample: when the bounded solver is selected and returns
a tour, the reported label is "ortools" — neither "greedy" nor
"optimized". -/
theorem solver_label_counterexample :
    (composeFixed true (fun _ => some [0, 1]) mat3 1).2 ≠ "greedy" ∧
    (composeFixed true (fun _ => some [0, 1]) mat3 1).2 ≠ "optimized" := by
  constructor <;> decide

/-- C6 amended: the solver label is always one of "greedy" or
"ortools", and it names the algorithm that actually produced the tour:
whenever the bounded solver is selected but returns the absent result,
the greedy builder is re-run on the sub-matrix and the reported label
is "greedy". -/
theorem solver_label_actual (hasOT : Bool)
    (oracle : List (List ℤ) → Option (List Nat)) (d : Mat) (f : Nat) :
    ((composeFixed hasOT oracle d f).2 = "greedy" ∨
     (composeFixed hasOT oracle d f).2 = "ortools") ∧
    (d.length ≠ 2 → hasOT = true → (sub_nodes d.length f).length ≤ 25 →
      ortools_tsp hasOT oracle (sub_matrix d f) true = none →
      composeFixed hasOT oracle d f =
        (splice (sub_nodes d.length f)
          ((greedy_tsp (sub_matrix d f) true).getD []), "greedy")) := by
  constructor
  · by_cases hn2 : d.length = 2
    · left
      have hcf : composeFixed hasOT oracle d f = ([0, 1, 0], "greedy") := by
        unfold composeFixed
        rw [if_pos hn2]
      rw [hcf]
    · rcases composeFixed_cases hasOT oracle d f hn2 with ⟨so, _, _, _, hcf⟩ | hcf
      · right
        rw [hcf]
      · left
        rw [hcf]
  · intro hn2 hot hm ho
    unfold composeFixed
    rw [if_neg hn2, if_pos ⟨hot, hm⟩, ho]

/-- Witness for C6 (amended) on a concrete 3-node matrix where the
bounded solver is selected but returns absent. -/
theorem solver_label_actual_witness :
    ((composeFixed true (fun _ => none) mat3 1).2 = "greedy" ∨
     (composeFixed true (fun _ => none) mat3 1).2 = "ortools") ∧
    composeFixed true (fun _ => none) mat3 1 =
      (splice (sub_nodes mat3.length 1)
        ((greedy_tsp (sub_matrix mat3 1) true).getD []), "greedy") :=
  ⟨(solver_label_actual true (fun _ => none) mat3 1).1,
   (solver_label_actual true (fun _ => none) mat3 1).2
     (by decide) rfl (by decide) rfl⟩

/-- C7: before the bounded solver runs, every matrix entry is converted
to an integer — a present fractional cost is truncated toward zero by
`int()`, a missing entry is mapped to cost 0 — and the solver search
operates only on this integer matrix. -/
theorem int_conversion_spec :
    (∀ q : ℚ, pyInt q = if 0 ≤ q then ⌊q⌋ else ⌈q⌉) ∧
    (∀ mat : Mat, toIntMatrix mat =
      mat.map (fun row => row.map (fun e =>
        match e with
        | none => 0
        | some q => if 0 ≤ q then ⌊q⌋ else ⌈q⌉))) ∧
    (∀ (hOT : Bool) (oracle oracle' : List (List ℤ) → Option (List Nat))
        (mat : Mat) (rt : Bool),
      oracle (toIntMatrix mat) = oracle' (toIntMatrix mat) →
      ortools_tsp hOT oracle mat rt = ortools_tsp hOT oracle' mat rt) := by
  refine ⟨pyInt_trunc, ?_, ?_⟩
  · intro mat
    unfold toIntMatrix
    apply List.map_congr_left
    intro row _
    apply List.map_congr_left
    intro e _
    cases e with
    | none => rfl
    | some q =>
      show pyInt q = _
      rw [pyInt_trunc]
  · intro hOT oracle oracle' mat rt h
    unfold ortools_tsp
    rw [h]

/-- Witness for C7: two different search functions that agree on the
integer matrix of `mat2` give the same `ortools_tsp` result. -/
theorem int_conversion_spec_witness :
    ortools_tsp true (fun _ => none) mat2 true =
      ortools_tsp true (fun m => if m.length = 0 then some [] else none)
        mat2 true :=
  int_conversion_spec.2.2 true (fun _ => none)
    (fun m => if m.length = 0 then some [] else none) mat2 true (by decide)

/-- C8: the totals are the sums of matrix entries over consecutive
pairs of the final tour, and at the response boundary the distance
total is divided by 1000 and rounded to 2 decimals while the duration
total is divided by 60 and rounded to 1 decimal. -/
theorem aggregation_totals (dist dur : Mat) (order : List Nat) :
    tour_total dist order = pairSum dist order ∧
    tour_total dur order = pairSum dur order ∧
    total_distance_km dist order = pyRound (pairSum dist order / 1000) 2 ∧
    total_duration_min dur order = pyRound (pairSum dur order / 60) 1 := by
  refine ⟨tour_total_eq_pairSum _ _, tour_total_eq_pairSum _ _, ?_, ?_⟩
  · rw [total_distance_km, tour_total_eq_pairSum]
  · rw [total_duration_min, tour_total_eq_pairSum]

/-- C9: for every sub-tour, including ones with repeated elements, the
splice produces a global tour that begins with depot 0, ends with
depot 0, contains no node other than the depot more than once, and
contains only indices drawn from the sub-node list plus the depot. -/
theorem splice_global_invariants (n f : Nat) (so : List Nat) :
    (splice (sub_nodes n f) so).get? 0 = some 0 ∧
    (splice (sub_nodes n f) so).getLast? = some 0 ∧
    (∀ x, x ≠ 0 → (splice (sub_nodes n f) so).count x ≤ 1) ∧
    (∀ x ∈ splice (sub_nodes n f) so, x = 0 ∨ x ∈ sub_nodes n f) :=
  ⟨splice_head _ _, splice_last _ _, fun x hx => splice_count _ _ x hx,
   fun x hx => splice_mem _ _ x hx⟩

/-- Witness for C9 at a concrete sub-tour with repeated elements. -/
theorem splice_global_invariants_witness :
    (splice (sub_nodes 4 2) [0, 1, 0, 2]).get? 0 = some 0 ∧
    (splice (sub_nodes 4 2) [0, 1, 0, 2]).getLast? = some 0 ∧
    (splice (sub_nodes 4 2) [0, 1, 0, 2]).count 3 ≤ 1 ∧
    (3 = 0 ∨ 3 ∈ sub_nodes 4 2) :=
  ⟨(splice_global_invariants 4 2 [0, 1, 0, 2]).1,
   (splice_global_invariants 4 2 [0, 1, 0, 2]).2.1,
   (splice_global_invariants 4 2 [0, 1, 0, 2]).2.2.1 3 (by decide),
   (splice_global_invariants 4 2 [0, 1, 0, 2]).2.2.2 3 (by decide)⟩

/-- C10: `greedy_tsp` is total at its public interface — on an empty
matrix it returns the empty tour for either round-trip flag, and on any
square matrix whose entries may be missing it returns a tour rather
than failing. -/
theorem greedy_totality (mat : Mat) (rt : Bool) :
    (mat.length = 0 → greedy_tsp mat rt = some []) ∧
    ((∀ row ∈ mat, row.length = mat.length) →
      (greedy_tsp mat rt).isSome = true) := by
  constructor
  · intro h
    have hm : mat = [] := List.length_eq_zero.mp h
    subst hm
    cases rt <;> rfl
  · intro hsq
    obtain ⟨p, hp, _⟩ := greedy_tsp_spec mat hsq rt
    rw [hp]
    rfl

/-- Witness for C10 on the empty matrix and a 1-node matrix whose only
entry is missing. -/
theorem greedy_totality_witness :
    greedy_tsp ([] : Mat) true = some [] ∧
    (greedy_tsp ([[none]] : Mat) false).isSome = true :=
  ⟨(greedy_totality [] true).1 rfl,
   (greedy_totality [[none]] false).2 (by decide)⟩

end RoutePlanner
